import Mathlib

/-!
Verification of the redtales-engine backend (Reddit-to-story pipeline).

The Python sources under `backend/` are shallowly embedded below:
pure string manipulation is modelled on `List Char` (Python `str` methods
`strip`, `split`, `join`, slicing) and `String` (concatenation-heavy prompt
assembly), stateful/remote calls are modelled by passing the remote results
(or an `Except` error) in as explicit arguments, and Python exceptions are
modelled by `Except`.
-/

namespace RedTales

/-! ## Character-level utilities (Python `str` methods on `List Char`) -/

/-- Python whitespace characters recognised by `str.strip()` / `str.split()`
(ASCII subset: space, tab, newline, carriage return, vertical tab, form feed). -/
def isWs (c : Char) : Bool :=
  c = ' ' || c = '\t' || c = '\n' || c = '\r' || c = '\x0b' || c = '\x0c'

/-- Python `s.strip()`: drop leading and trailing whitespace. -/
def trim (s : List Char) : List Char :=
  ((s.dropWhile isWs).reverse.dropWhile isWs).reverse

/-- Python `s.split("\n")`: split at every newline; keeps empty pieces,
always returns at least one piece. -/
def splitNL : List Char → List (List Char)
  | [] => [[]]
  | c :: cs =>
    if c = '\n' then [] :: splitNL cs
    else
      match splitNL cs with
      | [] => [[c]]
      | l :: ls => (c :: l) :: ls

/-- Python `"\n".join(pieces)`. -/
def joinNL : List (List Char) → List Char
  | [] => []
  | [l] => l
  | l :: ls => l ++ '\n' :: joinNL ls

/-- Apply `f` to the last element of a list (helper for reasoning about
`splitNL` over appended strings). -/
def modLast (f : List Char → List Char) : List (List Char) → List (List Char)
  | [] => []
  | [l] => [f l]
  | l :: ls => l :: modLast f ls

/-- Python `"\n".join(line.strip() for line in s.split("\n") if line.strip())`:
strip every line and drop the ones that are empty after stripping. -/
def collapseLines (s : List Char) : List Char :=
  joinNL (((splitNL s).map trim).filter (fun l => !l.isEmpty))

/-- Python `pat in s`: substring test. -/
def isSub (pat : List Char) : List Char → Bool
  | [] => pat.isEmpty
  | c :: cs => pat.isPrefixOf (c :: cs) || isSub pat cs

/-- Python `s.split(pat)[0]`: the portion of `s` before the first occurrence
of `pat` (all of `s` when `pat` does not occur). -/
def takeBefore (pat : List Char) : List Char → List Char
  | [] => []
  | c :: cs => if pat.isPrefixOf (c :: cs) then [] else c :: takeBefore pat cs

/-! ## `RedditScraper._clean_comment_body` (reddit_scraper.py lines 185-201) -/

def editUp : List Char := "EDIT:".data

def editLo : List Char := "Edit:".data

def dots : List Char := "...".data

/-- The edit-note removal step of `_clean_comment_body` (lines 190-192):
`if "EDIT:" in cleaned or "Edit:" in cleaned: cleaned =
cleaned.split("EDIT:")[0].split("Edit:")[0].strip()`. -/
def editCut (c0 : List Char) : List Char :=
  if isSub editUp c0 || isSub editLo c0 then
    trim (takeBefore editLo (takeBefore editUp c0))
  else c0

/-- `RedditScraper._clean_comment_body`: strip, cut at the first edit marker
(and strip again), drop blank lines while stripping each line, and truncate
to 1000 characters with an appended ellipsis. -/
def cleanCommentBody (body : List Char) : List Char :=
  let c2 := collapseLines (editCut (trim body))
  if 1000 < c2.length then c2.take 1000 ++ dots else c2

/-! ## `RedditScraper._is_valid_comment` (reddit_scraper.py lines 161-183) -/

/-- `BOT_ACCOUNTS` (reddit_scraper.py lines 17-25). -/
def botAccounts : List String :=
  ["AutoModerator", "RemindMeBot", "WikiTextBot", "TotesMessenger",
   "GoodBot_BadBot", "B0tRank", "RepostSleuthBot"]

/-- A raw PRAW comment as `_is_valid_comment` / `get_top_comments` see it:
`author` is `none` for a deleted author, `body` is `none` when the comment
body attribute is Python `None`. -/
structure PrawComment where
  id : String
  body : Option (List Char)
  author : Option String
  score : Int
  parentId : String
deriving DecidableEq

/-- `RedditScraper._is_valid_comment`: the checks in source order. -/
def isValidComment (minScore : Int) (c : PrawComment) : Bool :=
  match c.author with
  | none => false
  | some a =>
    match c.body with
    | none => false
    | some b =>
      if b = "[removed]".data ∨ b = "[deleted]".data then false
      else if botAccounts.contains a then false
      else if c.score < minScore then false
      else if (trim b).length < 20 then false
      else true

/-! ## `RedditScraper.get_top_comments` (reddit_scraper.py lines 116-155) -/

/-- The normalized comment record built by `get_top_comments`. -/
structure RedditComment where
  id : String
  body : String
  author : String
  score : Int
  isTopLevel : Bool
deriving DecidableEq

/-- Stable insertion of one comment into a score-descending list: walk past
strictly greater scores, stop at the first `≤` score, so an element keeps
its original position relative to equal scores that follow it. -/
def insertDesc (c : PrawComment) : List PrawComment → List PrawComment
  | [] => [c]
  | d :: ds => if c.score < d.score then d :: insertDesc c ds else c :: d :: ds

/-- Python `list.sort(key=lambda c: c.score, reverse=True)` is a stable
descending sort; any stable descending sort computes the same list, so it is
modelled by stable insertion sort. -/
def sortDesc : List PrawComment → List PrawComment
  | [] => []
  | c :: cs => insertDesc c (sortDesc cs)

/-- The `RedditComment(...)` construction inside `get_top_comments`
(Python `str(None)` is the string `"None"`; for retained comments the
author is always present). -/
def toRedditComment (c : PrawComment) : RedditComment :=
  { id := c.id
    body := ⟨cleanCommentBody (c.body.getD [])⟩
    author := c.author.getD "None"
    score := c.score
    isTopLevel := "t3_".data.isPrefixOf c.parentId.data }

/-- The pure core of `RedditScraper.get_top_comments`: `fetched` stands for
the comment tree the remote call returned (placeholders already removed);
filter by validity, sort by score descending (stable), truncate to `limit`,
normalize. -/
def getTopComments (minScore : Int) (limit : Nat) (fetched : List PrawComment) :
    List RedditComment :=
  let valid := fetched.filter (fun c => isValidComment minScore c)
  ((sortDesc valid).take limit).map toRedditComment

/-! ## Configured defaults (config.py lines 39-45) -/

def minCommentScoreDefault : Int := 10

def defaultCommentLimit : Nat := 5

def storyMinWords : Nat := 300

def storyMaxWords : Nat := 500

/-! ## `PromptBuilder` (prompt_builder.py) -/

/-- A post record (`RedditPost` in reddit_scraper.py; the `created_utc`
wall-clock field is omitted). -/
structure RedditPost where
  id : String
  title : String
  author : String
  score : Int
  subreddit : String
  url : String
  num_comments : Nat
deriving DecidableEq

/-- `STORY_STYLES` (prompt_builder.py lines 17-42): style name, description,
prompt addon. -/
def storyStyles : List (String × String × String) :=
  [("engaging", "A balanced, engaging narrative",
    "Write in an engaging, accessible style that draws the reader in."),
   ("comedy", "Humorous and light-hearted",
    "Write with humor and wit, finding the funny side of the situation."),
   ("drama", "Emotional and character-driven",
    "Create a dramatic narrative focusing on emotions and character development."),
   ("documentary", "Factual and journalistic",
    "Present the story in a documentary style, as if narrating real events."),
   ("wholesome", "Uplifting and positive",
    "Focus on the heartwarming and positive aspects, creating an uplifting narrative."),
   ("thriller", "Suspenseful and tense",
    "Build suspense and tension throughout the narrative.")]

/-- The keys of `STORY_STYLES` (the fixed style vocabulary of spec §6). -/
def styleVocab : List String := storyStyles.map (fun e => e.1)

def styleDescription (style : String) : String :=
  (((storyStyles.filter (fun e => e.1 == style)).head?).map (fun e => e.2.1)).getD ""

def styleAddon (style : String) : String :=
  (((storyStyles.filter (fun e => e.1 == style)).head?).map (fun e => e.2.2)).getD ""

/-- `PromptBuilder._build_system_message` (lines 114-121). -/
def buildSystemMessage (style : String) : String :=
  "You are a creative storyteller who transforms Reddit posts and comments " ++
  "into engaging narrative stories. You excel at weaving multiple perspectives " ++
  "into cohesive tales while maintaining the essence of the original content. " ++
  styleAddon style

/-- One numbered comment line of the user prompt, with the per-comment
500-character truncation (lines 143-149). -/
def commentLine (i : Nat) (c : RedditComment) : String :=
  let text := if 500 < c.body.data.length then ⟨c.body.data.take 500⟩ ++ "..." else c.body
  "\n" ++ toString i ++ ". " ++ text ++ "\n"

def commentBlock (comments : List RedditComment) : String :=
  String.join ((comments.enumFrom 1).map (fun p => commentLine p.1 p.2))

/-- `PromptBuilder._build_user_prompt` (lines 123-164). -/
def buildUserPrompt (post : RedditPost) (comments : List RedditComment)
    (style : String) (minW maxW : Nat) : String :=
  "Transform this Reddit post and its top comments into a " ++ style ++ " story.\n\n" ++
  "**Reddit Post from r/" ++ post.subreddit ++ ":**\n\"" ++ post.title ++ "\"\n\n" ++
  "**Top Comments from the community:**\n" ++
  commentBlock comments ++
  "\n\n**Instructions:**\n" ++
  "- Create a cohesive narrative that naturally incorporates perspectives from all comments\n" ++
  "- The story should flow smoothly, not just list the comments\n" ++
  "- Maintain the spirit and tone of the original content\n" ++
  "- Write in third person unless first person serves the narrative better\n" ++
  "- Length: " ++ toString minW ++ "-" ++ toString maxW ++ " words\n" ++
  "- Style: " ++ styleDescription style ++
  "\n\nBegin the story:"

/-- `StoryPrompt` (prompt_builder.py lines 45-52; the `post_data` echo dict
is omitted — it is traceability metadata never read by the pipeline). -/
structure StoryPrompt where
  system_message : String
  user_prompt : String
  style : String
  word_count : Nat × Nat
deriving DecidableEq

/-- Python `x or default` on an optional int: `None` and `0` are falsy. -/
def pyOrNat (x : Option Nat) (d : Nat) : Nat :=
  match x with
  | none => d
  | some n => if n = 0 then d else n

/-- `PromptBuilder.build_story_prompt` (lines 61-112): default the word
bounds, remap an unknown style to "engaging", build both messages. -/
def buildStoryPrompt (post : RedditPost) (comments : List RedditComment)
    (style : String) (minWords maxWords : Option Nat) : StoryPrompt :=
  let minW := pyOrNat minWords storyMinWords
  let maxW := pyOrNat maxWords storyMaxWords
  let vstyle := if styleVocab.contains style then style else "engaging"
  { system_message := buildSystemMessage vstyle
    user_prompt := buildUserPrompt post comments vstyle minW maxW
    style := vstyle
    word_count := (minW, maxW) }

/-! ## `AIClient` and providers (ai_client.py) -/

/-- A remote generation error (the exception the vendor SDK raised). -/
inductive GenError where
  | remote (msg : String)
deriving DecidableEq

/-- `OpenAIProvider.generate_completion` (lines 44-60) hands the chat endpoint
a fixed system message plus the caller's prompt as the user message. -/
def openAIFixedSystem : String :=
  "You are a creative storyteller who writes engaging narratives."

def openAIMessages (prompt : String) : List (String × String) :=
  [("system", openAIFixedSystem), ("user", prompt)]

/-- Anthropic / Bedrock `generate_completion` (lines 89-101, 131-160) send a
single user-role message containing the caller's prompt. -/
def singleUserMessages (prompt : String) : List (String × String) :=
  [("user", prompt)]

/-! ## `StoryGenerator` (story_generator.py) -/

/-- Snapshot of post metadata stored on a story (lines 136-144). -/
structure SourcePostMeta where
  id : String
  title : String
  author : String
  score : Int
  subreddit : String
  url : String
  num_comments : Nat
deriving DecidableEq

/-- Per-comment preview snapshot (lines 146-154). -/
structure CommentPreview where
  id : String
  author : String
  score : Int
  preview : String
deriving DecidableEq

/-- `GeneratedStory` (lines 23-35; the two wall-clock fields
`generation_time` and `created_at` are omitted — real time). -/
structure GeneratedStory where
  id : String
  title : String
  content : String
  style : String
  word_count : Nat
  source_post : SourcePostMeta
  source_comments : List CommentPreview
  ai_provider : String
deriving DecidableEq

/-- `style_prefix.get(style, "The Story of")` (lines 238-247). -/
def stylePrefixTable : List (String × String) :=
  [("comedy", "The Hilarious Tale of"),
   ("drama", "The Dramatic Story of"),
   ("documentary", "The True Account of"),
   ("wholesome", "The Heartwarming Story of"),
   ("thriller", "The Suspenseful Tale of"),
   ("engaging", "The Story of")]

def stylePrefixFor (style : String) : String :=
  (((stylePrefixTable.filter (fun e => e.1 == style)).head?).map (fun e => e.2)).getD
    "The Story of"

/-- `StoryGenerator._generate_story_title` (lines 234-254): strip a trailing
question mark and join with a space, otherwise join with a colon. -/
def generateStoryTitle (postTitle style : String) : String :=
  let p := stylePrefixFor style
  if postTitle.data.getLast? = some '?' then p ++ " " ++ ⟨postTitle.data.dropLast⟩
  else p ++ ": " ++ postTitle

/-- Python `len(s.split())`: number of maximal whitespace-free runs. -/
def countWords (s : String) : Nat :=
  ((s.data.splitOnP isWs).filter (fun w => !w.isEmpty)).length

/-- The comment preview construction (lines 146-154). -/
def toCommentPreview (c : RedditComment) : CommentPreview :=
  { id := c.id
    author := c.author
    score := c.score
    preview := if 100 < c.body.data.length then ⟨c.body.data.take 100⟩ ++ "..." else c.body }

/-- A record of one `generate` invocation made on the provider. -/
structure GenCall where
  prompt : String
  maxTokens : Nat
deriving DecidableEq

/-- `StoryGenerator.generate_from_post` (lines 71-172), instrumented with the
list of provider invocations it performs.  `chatStyle` models the
`hasattr(provider, 'client') and hasattr(provider.client, 'chat')` structural
test, `gen` the provider's `generate_completion` (raising = `.error`),
`providerName` the configured provider tag, `nowStamp` the wall clock read
used in the story id.  An exception from `gen` is logged and re-raised
unmodified (lines 106-124). -/
def generateFromPostT (chatStyle : Bool) (gen : String → Nat → Except GenError String)
    (providerName : String) (nowStamp : Nat) (post : RedditPost)
    (comments : List RedditComment) (style : String) (minWords maxWords : Option Nat) :
    Except GenError GeneratedStory × List GenCall :=
  let prompt := buildStoryPrompt post comments style minWords maxWords
  let promptArg :=
    if chatStyle then prompt.user_prompt
    else prompt.system_message ++ "\n\n" ++ prompt.user_prompt
  match gen promptArg 1500 with
  | .error e => (.error e, [⟨promptArg, 1500⟩])
  | .ok content =>
    (.ok
      { id := post.id ++ "_" ++ style ++ "_" ++ toString nowStamp
        title := generateStoryTitle post.title style
        content := content
        style := style
        word_count := countWords content
        source_post :=
          { id := post.id, title := post.title, author := post.author,
            score := post.score, subreddit := post.subreddit, url := post.url,
            num_comments := post.num_comments }
        source_comments := comments.map toCommentPreview
        ai_provider := providerName },
     [⟨promptArg, 1500⟩])

/-- `StoryGenerator.generate_from_subreddit` (lines 174-232): the per-post
loop.  `fetchComments` models `get_top_comments` (which may raise), `genStory`
models the `generate_from_post` call (which may raise); both kinds of failure
are caught by the per-post `try`/`except` and the loop continues. -/
def generateFromSubreddit (fetchComments : RedditPost → Except GenError (List RedditComment))
    (genStory : RedditPost → List RedditComment → Except GenError GeneratedStory) :
    List RedditPost → List GeneratedStory
  | [] => []
  | post :: rest =>
    if post.num_comments < 5 then generateFromSubreddit fetchComments genStory rest
    else
      match fetchComments post with
      | .error _ => generateFromSubreddit fetchComments genStory rest
      | .ok comments =>
        if comments.length < 3 then generateFromSubreddit fetchComments genStory rest
        else
          match genStory post comments with
          | .error _ => generateFromSubreddit fetchComments genStory rest
          | .ok story => story :: generateFromSubreddit fetchComments genStory rest

/-! ## `RedditScraper.test_connection` (reddit_scraper.py lines 63-72) -/

/-- What the front-page probe produced: an exception, or the (possibly empty)
listing of submissions `reddit.front.hot(limit=1)` yielded. -/
inductive ProbeResult where
  | failure (msg : String)
  | listing (titles : List String)
deriving DecidableEq

/-- `RedditScraper.test_connection`: `return True` fires for the first
submission of the listing; if the listing is empty the `for` loop finishes
and the function falls through, implicitly returning Python `None`
(modelled as `none`); any exception is caught and yields `False`. -/
def testConnection (probe : ProbeResult) : Option Bool :=
  match probe with
  | .failure _ => some false
  | .listing [] => none
  | .listing (_ :: _) => some true

/-! ## Concrete sample data for witnesses and counterexamples -/

def samplePost : RedditPost :=
  { id := "abc123", title := "What's the best advice you've ever gotten?",
    author := "asker", score := 1500, subreddit := "AskReddit",
    url := "https://reddit.com/abc123", num_comments := 250 }

def sampleComment1 : RedditComment :=
  { id := "c1", body := "Always be kind to strangers.", author := "u1",
    score := 500, isTopLevel := true }

def sampleComment2 : RedditComment :=
  { id := "c2", body := "Save money early and often.", author := "u2",
    score := 350, isTopLevel := true }

def sampleComments : List RedditComment := [sampleComment1, sampleComment2]

/-- A provider stub that always succeeds. -/
def okGen : String → Nat → Except GenError String :=
  fun _ _ => .ok "Once upon a time the community shared its very best advice."

/-- A provider stub that always raises a remote error. -/
def errGen : String → Nat → Except GenError String :=
  fun _ _ => .error (.remote "rate limited")

/-- Raw comments with fetch order [500, 275, 350], all valid at the default
minimum score. -/
def praw500 : PrawComment :=
  { id := "a1", body := some "This is a sufficiently long comment body.".data,
    author := some "alice", score := 500, parentId := "t3_abc" }

def praw275 : PrawComment :=
  { id := "a2", body := some "Another comment body that is long enough.".data,
    author := some "bob", score := 275, parentId := "t3_abc" }

def praw350 : PrawComment :=
  { id := "a3", body := some "Yet another comment body of decent length.".data,
    author := some "carol", score := 350, parentId := "t3_abc" }

/-- Valid except for its score (3 < the configured minimum 10). -/
def prawLowScore : PrawComment :=
  { id := "a4", body := some "A perfectly reasonable comment body here.".data,
    author := some "dave", score := 3, parentId := "t3_abc" }

/-- High score but trimmed body shorter than 20 characters. -/
def prawShortBody : PrawComment :=
  { id := "a5", body := some "   too short   ".data,
    author := some "erin", score := 999, parentId := "t3_abc" }

def mkScenarioPost (pid : String) (n : Nat) : RedditPost :=
  { id := pid, title := "Scenario post", author := "op", score := 100,
    subreddit := "AskReddit", url := "https://reddit.com/x", num_comments := n }

/-- Five sampled posts: two with fewer than 5 total comments, one whose fetch
survives with only 2 valid comments, two that generate successfully. -/
def scenarioPosts : List RedditPost :=
  [mkScenarioPost "p1" 3, mkScenarioPost "p2" 20, mkScenarioPost "p3" 2,
   mkScenarioPost "p4" 10, mkScenarioPost "p5" 12]

def scenarioFetch (p : RedditPost) : Except GenError (List RedditComment) :=
  if p.id = "p2" then .ok [sampleComment1, sampleComment2]
  else if p.id = "p4" then .ok [sampleComment1, sampleComment1, sampleComment2]
  else if p.id = "p5" then .ok [sampleComment1, sampleComment1, sampleComment2, sampleComment2]
  else .error (.remote "SourceUnavailable")

def scenarioStory : GeneratedStory :=
  { id := "s1", title := "The Story of: Scenario post", content := "A short story.",
    style := "engaging", word_count := 3,
    source_post :=
      { id := "p4", title := "Scenario post", author := "op", score := 100,
        subreddit := "AskReddit", url := "https://reddit.com/x", num_comments := 10 },
    source_comments := [], ai_provider := "openai" }

def scenarioGen (_ : RedditPost) (_ : List RedditComment) :
    Except GenError GeneratedStory :=
  .ok scenarioStory

/-! ## Lemmas: substring machinery -/

theorem isPrefixOf_iff {p s : List Char} : p.isPrefixOf s = true ↔ ∃ t, p ++ t = s := by
  induction p generalizing s with
  | nil => simp [List.isPrefixOf]
  | cons a as ih =>
    cases s with
    | nil => simp [List.isPrefixOf]
    | cons b bs =>
      simp only [List.isPrefixOf, Bool.and_eq_true, beq_iff_eq, ih]
      constructor
      · rintro ⟨rfl, t, rfl⟩
        exact ⟨t, rfl⟩
      · rintro ⟨t, h⟩
        injection h with h1 h2
        exact ⟨h1, t, h2⟩

theorem isSub_iff {pat s : List Char} : isSub pat s = true ↔ ∃ u v, u ++ pat ++ v = s := by
  induction s with
  | nil =>
    simp only [isSub, List.isEmpty_iff]
    constructor
    · rintro rfl
      exact ⟨[], [], rfl⟩
    · rintro ⟨u, v, h⟩
      have := List.append_eq_nil.mp h
      exact (List.append_eq_nil.mp this.1).2
  | cons c cs ih =>
    simp only [isSub, Bool.or_eq_true, isPrefixOf_iff, ih]
    constructor
    · rintro (⟨t, ht⟩ | ⟨u, v, huv⟩)
      · exact ⟨[], t, by simpa using ht⟩
      · exact ⟨c :: u, v, by rw [← huv]; rfl⟩
    · rintro ⟨u, v, h⟩
      cases u with
      | nil => exact Or.inl ⟨v, by simpa using h⟩
      | cons x xs =>
        injection h with h1 h2
        exact Or.inr ⟨xs, v, h2⟩

theorem isSub_extend {pat m : List Char} (h : isSub pat m = true) (u v : List Char) :
    isSub pat (u ++ m ++ v) = true := by
  obtain ⟨a, b, rfl⟩ := isSub_iff.mp h
  exact isSub_iff.mpr ⟨u ++ a, b ++ v, by simp⟩

theorem isSub_take {pat s : List Char} {n : Nat} (h : isSub pat (s.take n) = true) :
    isSub pat s = true := by
  have h2 := isSub_extend h [] (s.drop n)
  simpa using h2

theorem takeBefore_part (pat s : List Char) : ∃ t, takeBefore pat s ++ t = s := by
  induction s with
  | nil => exact ⟨[], rfl⟩
  | cons c cs ih =>
    by_cases h : pat.isPrefixOf (c :: cs) = true
    · exact ⟨c :: cs, by simp [takeBefore, h]⟩
    · obtain ⟨t, ht⟩ := ih
      refine ⟨t, ?_⟩
      simp only [takeBefore, h]
      simp [ht]

theorem not_isSub_takeBefore {pat : List Char} (hne : pat ≠ []) (s : List Char) :
    isSub pat (takeBefore pat s) = false := by
  induction s with
  | nil =>
    simp [takeBefore, isSub, List.isEmpty_iff, hne]
  | cons c cs ih =>
    by_cases h : pat.isPrefixOf (c :: cs) = true
    · simp [takeBefore, h, isSub, List.isEmpty_iff, hne]
    · simp only [takeBefore, h, if_false]
      simp only [isSub, Bool.or_eq_false_iff]
      refine ⟨?_, ih⟩
      by_contra hp
      rw [Bool.not_eq_false, isPrefixOf_iff] at hp
      obtain ⟨t, ht⟩ := hp
      obtain ⟨r, hr⟩ := takeBefore_part pat cs
      apply h
      rw [isPrefixOf_iff]
      exact ⟨t ++ r, by rw [← List.append_assoc, ht]; simp [hr]⟩

theorem dropWhileWs_part (s : List Char) : ∃ u, u ++ s.dropWhile isWs = s := by
  induction s with
  | nil => exact ⟨[], rfl⟩
  | cons c cs ih =>
    by_cases h : isWs c = true
    · obtain ⟨u, hu⟩ := ih
      exact ⟨c :: u, by simp [List.dropWhile_cons, h, hu]⟩
    · exact ⟨[], by simp [List.dropWhile_cons, h]⟩

theorem trim_part (s : List Char) : ∃ u v, u ++ trim s ++ v = s := by
  obtain ⟨u, hu⟩ := dropWhileWs_part s
  obtain ⟨w, hw⟩ := dropWhileWs_part (s.dropWhile isWs).reverse
  refine ⟨u, w.reverse, ?_⟩
  have hd : s.dropWhile isWs = trim s ++ w.reverse := by
    have h2 := (congrArg List.reverse hw).symm
    simpa [trim] using h2
  calc u ++ trim s ++ w.reverse = u ++ (trim s ++ w.reverse) := by rw [List.append_assoc]
    _ = u ++ s.dropWhile isWs := by rw [← hd]
    _ = s := hu

theorem isSub_trim {pat s : List Char} (h : isSub pat (trim s) = true) :
    isSub pat s = true := by
  obtain ⟨u, v, huv⟩ := trim_part s
  rw [← huv]
  exact isSub_extend h u v

theorem mem_trim {c : Char} {s : List Char} (h : c ∈ trim s) : c ∈ s := by
  obtain ⟨u, v, huv⟩ := trim_part s
  rw [← huv]
  simp [h]

theorem mem_of_occ {x : Char} {u m v s : List Char} (h : u ++ m ++ v = s)
    (hx : x ∈ m) : x ∈ s := by
  rw [← h]
  simp [hx]

theorem take_append3 (u m v : List Char) (n : Nat) (h : u.length ≤ n) :
    (u ++ m ++ v).take n =
      u ++ m.take (n - u.length) ++ v.take (n - u.length - m.length) := by
  rw [List.append_assoc, List.take_append_eq_append_take, List.take_of_length_le h,
      List.take_append_eq_append_take, List.append_assoc]

theorem drop_append3 (u m v : List Char) (n : Nat) :
    (u ++ m ++ v).drop n =
      u.drop n ++ m.drop (n - u.length) ++ v.drop (n - u.length - m.length) := by
  rw [List.append_assoc, List.drop_append_eq_append_drop, List.drop_append_eq_append_drop,
      List.append_assoc]

/-- An occurrence of `pat` inside `a ++ b` lies inside `a`, inside `b`, or
spans the boundary (a nonempty suffix-of-`a` part glued to a nonempty
start-of-`b` part). -/
theorem isSub_append_cases {pat a b : List Char} (h : isSub pat (a ++ b) = true) :
    isSub pat a = true ∨ isSub pat b = true ∨
      ∃ s1 s2, s1 ≠ [] ∧ s2 ≠ [] ∧ pat = s1 ++ s2 ∧
        (∃ u, u ++ s1 = a) ∧ (∃ v, s2 ++ v = b) := by
  obtain ⟨u, v, huv⟩ := isSub_iff.mp h
  have ha : a = (u ++ pat ++ v).take a.length := by rw [huv, List.take_left]
  have hb : b = (u ++ pat ++ v).drop a.length := by rw [huv, List.drop_left]
  by_cases hc1 : u.length + pat.length ≤ a.length
  · left
    have ha2 := ha.trans (take_append3 u pat v a.length (by omega))
    have ht : pat.take (a.length - u.length) = pat := List.take_of_length_le (by omega)
    rw [ht] at ha2
    exact isSub_iff.mpr ⟨u, _, ha2.symm⟩
  · by_cases hc2 : a.length ≤ u.length
    · right; left
      have hb2 := hb.trans (drop_append3 u pat v a.length)
      have h1 : a.length - u.length = 0 := by omega
      rw [h1, List.drop_zero, Nat.zero_sub, List.drop_zero] at hb2
      exact isSub_iff.mpr ⟨u.drop a.length, v, hb2.symm⟩
    · right; right
      have hj1 : 0 < a.length - u.length := by omega
      have hj2 : a.length - u.length < pat.length := by omega
      have ha2 := ha.trans (take_append3 u pat v a.length (by omega))
      have hz : a.length - u.length - pat.length = 0 := by omega
      rw [hz, List.take_zero, List.append_nil] at ha2
      have hb2 := hb.trans (drop_append3 u pat v a.length)
      rw [hz, List.drop_zero, List.drop_eq_nil_of_le (by omega : u.length ≤ a.length),
          List.nil_append] at hb2
      refine ⟨pat.take (a.length - u.length), pat.drop (a.length - u.length),
        ?_, ?_, (List.take_append_drop _ pat).symm, ⟨u, ha2.symm⟩, ⟨v, hb2.symm⟩⟩
      · intro hnil
        have hlen : (pat.take (a.length - u.length)).length = 0 := by rw [hnil]; rfl
        rw [List.length_take_of_le (by omega)] at hlen
        omega
      · intro hnil
        have hlen : (pat.drop (a.length - u.length)).length = 0 := by rw [hnil]; rfl
        rw [List.length_drop] at hlen
        omega

/-! ## Lemmas: splitting and joining on newlines -/

theorem splitNL_ne_nil (s : List Char) : splitNL s ≠ [] := by
  cases s with
  | nil => simp [splitNL]
  | cons c cs =>
    by_cases h : c = '\n'
    · simp [splitNL, h]
    · cases h2 : splitNL cs with
      | nil => simp [splitNL, h, h2]
      | cons l ls => simp [splitNL, h, h2]

theorem join_split (s : List Char) : joinNL (splitNL s) = s := by
  induction s with
  | nil => rfl
  | cons c cs ih =>
    by_cases h : c = '\n'
    · subst h
      simp only [splitNL, if_pos rfl]
      cases h2 : splitNL cs with
      | nil => exact absurd h2 (splitNL_ne_nil cs)
      | cons l ls =>
        rw [h2] at ih
        simpa [joinNL] using ih
    · simp only [splitNL, if_neg h]
      cases h2 : splitNL cs with
      | nil => exact absurd h2 (splitNL_ne_nil cs)
      | cons l ls =>
        rw [h2] at ih
        cases ls with
        | nil => simpa [joinNL] using ih
        | cons l2 ls2 => simpa [joinNL] using ih

theorem splitNL_nil_eq : splitNL [] = [[]] := rfl

theorem splitNL_cons_nl (cs : List Char) : splitNL ('\n' :: cs) = [] :: splitNL cs := by
  simp [splitNL]

theorem splitNL_cons_ne {c : Char} (h : c ≠ '\n') (cs : List Char) {l : List Char}
    {ls : List (List Char)} (h2 : splitNL cs = l :: ls) :
    splitNL (c :: cs) = (c :: l) :: ls := by
  simp [splitNL, h, h2]

theorem joinNL_one (l : List Char) : joinNL [l] = l := rfl

theorem joinNL_cons2 (l l2 : List Char) (ls : List (List Char)) :
    joinNL (l :: l2 :: ls) = l ++ '\n' :: joinNL (l2 :: ls) := rfl

theorem splitNL_dest (s : List Char) : ∃ l ls, splitNL s = l :: ls := by
  cases h : splitNL s with
  | nil => exact absurd h (splitNL_ne_nil s)
  | cons l ls => exact ⟨l, ls, rfl⟩

theorem splitNL_no_nl {s : List Char} (h : '\n' ∉ s) : splitNL s = [s] := by
  induction s with
  | nil => rfl
  | cons c cs ih =>
    have hc : c ≠ '\n' := fun hh => h (hh ▸ List.mem_cons_self c cs)
    have hcs : '\n' ∉ cs := fun hh => h (List.mem_cons_of_mem c hh)
    rw [splitNL_cons_ne hc cs (ih hcs)]

theorem splitNL_marker {l : List Char} (h : '\n' ∉ l) (rest : List Char) :
    splitNL (l ++ '\n' :: rest) = l :: splitNL rest := by
  induction l with
  | nil => simpa using splitNL_cons_nl rest
  | cons c cs ih =>
    have hc : c ≠ '\n' := fun hh => h (hh ▸ List.mem_cons_self c cs)
    have hcs : '\n' ∉ cs := fun hh => h (List.mem_cons_of_mem c hh)
    rw [List.cons_append, splitNL_cons_ne hc _ (ih hcs)]

theorem split_join {ls : List (List Char)} (h : ∀ l ∈ ls, '\n' ∉ l) (hne : ls ≠ []) :
    splitNL (joinNL ls) = ls := by
  induction ls with
  | nil => exact absurd rfl hne
  | cons l ls ih =>
    cases ls with
    | nil =>
      simp only [joinNL]
      exact splitNL_no_nl (h l (List.mem_cons_self l []))
    | cons l2 ls2 =>
      have hl : '\n' ∉ l := h l (List.mem_cons_self _ _)
      have hrest : ∀ x ∈ l2 :: ls2, '\n' ∉ x := fun x hx => h x (List.mem_cons_of_mem l hx)
      simp only [joinNL, splitNL_marker hl, ih hrest (by simp)]

theorem mem_splitNL_no_nl {s : List Char} : ∀ l ∈ splitNL s, '\n' ∉ l := by
  induction s with
  | nil =>
    intro l hl
    rw [splitNL_nil_eq, List.mem_singleton] at hl
    simp [hl]
  | cons c cs ih =>
    intro l hl
    by_cases h : c = '\n'
    · subst h
      rw [splitNL_cons_nl, List.mem_cons] at hl
      rcases hl with rfl | hl
      · simp
      · exact ih l hl
    · obtain ⟨l0, ls0, h2⟩ := splitNL_dest cs
      rw [splitNL_cons_ne h cs h2, List.mem_cons] at hl
      rcases hl with rfl | hl
      · intro hmem
        rcases List.mem_cons.mp hmem with hc | hc
        · exact h hc.symm
        · exact ih l0 (by rw [h2]; exact List.mem_cons_self l0 ls0) hc
      · exact ih l (by rw [h2]; exact List.mem_cons_of_mem l0 hl)

theorem mem_joinNL_part {l : List Char} {ls : List (List Char)} (h : l ∈ ls) :
    ∃ u v, u ++ l ++ v = joinNL ls := by
  induction ls with
  | nil => cases h
  | cons l0 ls0 ih =>
    rcases List.mem_cons.mp h with rfl | h0
    · cases ls0 with
      | nil => exact ⟨[], [], by simp [joinNL_one]⟩
      | cons l2 ls2 => exact ⟨[], '\n' :: joinNL (l2 :: ls2), by rw [joinNL_cons2]; simp⟩
    · obtain ⟨u, v, huv⟩ := ih h0
      cases ls0 with
      | nil => cases h0
      | cons l2 ls2 =>
        refine ⟨l0 ++ '\n' :: u, v, ?_⟩
        rw [joinNL_cons2, ← huv]
        simp

theorem isSub_line {pat l s : List Char} (hmem : l ∈ splitNL s)
    (h : isSub pat l = true) : isSub pat s = true := by
  obtain ⟨u, v, huv⟩ := mem_joinNL_part hmem
  rw [join_split] at huv
  rw [← huv]
  exact isSub_extend h u v

theorem modLast_cons (f : List Char → List Char) (l : List Char)
    {ls : List (List Char)} (h : ls ≠ []) :
    modLast f (l :: ls) = l :: modLast f ls := by
  cases ls with
  | nil => exact absurd rfl h
  | cons l2 ls2 => rfl

theorem modLast_concat (f : List Char → List Char) (init : List (List Char))
    (last : List Char) : modLast f (init ++ [last]) = init ++ [f last] := by
  induction init with
  | nil => rfl
  | cons l ls ih =>
    rw [List.cons_append, modLast_cons f l (by simp), ih, List.cons_append]

theorem splitNL_append (a b : List Char) :
    splitNL (a ++ b) =
      modLast (fun l => l ++ (splitNL b).headD []) (splitNL a) ++ (splitNL b).tail := by
  induction a with
  | nil =>
    obtain ⟨lb, lsb, h3⟩ := splitNL_dest b
    simp [splitNL_nil_eq, modLast, h3]
  | cons c cs ih =>
    obtain ⟨lc, lsc, h4⟩ := splitNL_dest (cs ++ b)
    obtain ⟨l0, ls0, h2⟩ := splitNL_dest cs
    by_cases h : c = '\n'
    · subst h
      rw [List.cons_append, splitNL_cons_nl, ih, splitNL_cons_nl,
          modLast_cons _ _ (splitNL_ne_nil cs), List.cons_append]
    · rw [h2, h4] at ih
      rw [List.cons_append, splitNL_cons_ne h _ h4, splitNL_cons_ne h _ h2]
      cases ls0 with
      | nil =>
        simp only [modLast] at ih ⊢
        rw [List.singleton_append] at ih
        injection ih with e1 e2
        subst e1
        subst e2
        simp
      | cons l1 ls1 =>
        rw [modLast_cons _ _ (by simp), List.cons_append] at ih
        injection ih with e1 e2
        subst e1
        subst e2
        conv_rhs => rw [modLast_cons _ _ (show l1 :: ls1 ≠ [] by simp)]
        rw [List.cons_append]

/-! ## Lemmas: trimming -/

theorem dropWhile_head_not (p : Char → Bool) (l : List Char) :
    ∀ x, (l.dropWhile p).head? = some x → p x = false := by
  induction l with
  | nil =>
    intro x hx
    simp [List.dropWhile] at hx
  | cons c cs ih =>
    intro x hx
    by_cases h : p c = true
    · rw [List.dropWhile_cons, if_pos h] at hx
      exact ih x hx
    · rw [List.dropWhile_cons, if_neg h] at hx
      simp only [List.head?_cons, Option.some.injEq] at hx
      rw [← hx]
      simpa using h

theorem trim_getLast_not_ws (s : List Char) :
    ∀ x, (trim s).getLast? = some x → isWs x = false := by
  intro x hx
  unfold trim at hx
  rw [List.getLast?_reverse] at hx
  exact dropWhile_head_not isWs _ x hx

theorem trim_head_not_ws (s : List Char) :
    ∀ x, (trim s).head? = some x → isWs x = false := by
  intro x hx
  unfold trim at hx
  rw [List.head?_reverse] at hx
  obtain ⟨u, hu⟩ := dropWhileWs_part (s.dropWhile isWs).reverse
  have h2 : (s.dropWhile isWs).reverse.getLast? = some x := by
    rw [← hu, List.getLast?_append, hx]
    rfl
  rw [List.getLast?_reverse] at h2
  exact dropWhile_head_not isWs _ x h2

theorem trim_eq_self {s : List Char}
    (hh : ∀ x, s.head? = some x → isWs x = false)
    (hl : ∀ x, s.getLast? = some x → isWs x = false) : trim s = s := by
  cases s with
  | nil => rfl
  | cons c cs =>
    have h1 : isWs c = false := hh c rfl
    have hd : (c :: cs).dropWhile isWs = c :: cs := by
      rw [List.dropWhile_cons, if_neg (by simp [h1])]
    unfold trim
    rw [hd]
    cases hr : (c :: cs).reverse with
    | nil => simp at hr
    | cons r0 rr =>
      have h2 : (c :: cs).getLast? = some r0 := by
        rw [← List.head?_reverse, hr]
        rfl
      have h3 : isWs r0 = false := hl r0 h2
      rw [List.dropWhile_cons, if_neg (by simp [h3]), ← hr, List.reverse_reverse]

theorem trim_idem (s : List Char) : trim (trim s) = trim s :=
  trim_eq_self (trim_head_not_ws s) (trim_getLast_not_ws s)

theorem trim_nil_eq : trim [] = [] := rfl

/-! ## Lemmas: line collapsing -/

theorem joinNL_ne_nil {ls : List (List Char)} (h : ls ≠ [])
    (hne : ∀ l ∈ ls, l ≠ []) : joinNL ls ≠ [] := by
  cases ls with
  | nil => exact absurd rfl h
  | cons l ls =>
    cases ls with
    | nil => simpa [joinNL_one] using hne l (by simp)
    | cons l2 ls2 =>
      rw [joinNL_cons2]
      simp

theorem joinNL_head {l : List Char} (ls : List (List Char)) (h : l ≠ []) :
    (joinNL (l :: ls)).head? = l.head? := by
  cases l with
  | nil => exact absurd rfl h
  | cons x xs => cases ls <;> rfl

theorem joinNL_getLast_not_ws {ls : List (List Char)}
    (hg : ∀ l ∈ ls, l ≠ [] ∧ ∀ x, l.getLast? = some x → isWs x = false) :
    ∀ x, (joinNL ls).getLast? = some x → isWs x = false := by
  induction ls with
  | nil =>
    intro x hx
    simp [joinNL] at hx
  | cons l ls ih =>
    intro x hx
    cases ls with
    | nil => exact (hg l (by simp)).2 x (by simpa [joinNL_one] using hx)
    | cons l2 ls2 =>
      rw [joinNL_cons2, ← List.singleton_append, List.getLast?_append,
          List.getLast?_append] at hx
      have hne : joinNL (l2 :: ls2) ≠ [] :=
        joinNL_ne_nil (by simp) (fun m hm => (hg m (List.mem_cons_of_mem l hm)).1)
      obtain ⟨y, hy⟩ : ∃ y, (joinNL (l2 :: ls2)).getLast? = some y := by
        cases hg2 : (joinNL (l2 :: ls2)).getLast? with
        | none =>
          cases hj : joinNL (l2 :: ls2) with
          | nil => exact absurd hj hne
          | cons a as =>
            rw [hj] at hg2
            rw [List.getLast?_eq_getLast_of_ne_nil (by simp)] at hg2
            cases hg2
        | some y => exact ⟨y, rfl⟩
      rw [hy] at hx
      simp only [Option.or_some] at hx
      have hx2 : y = x := by
        cases hx
        rfl
      exact hx2 ▸ ih (fun m hm => hg m (List.mem_cons_of_mem l hm)) y hy

theorem trimmedFilter_id {ls : List (List Char)} (hg : ∀ l ∈ ls, trim l = l ∧ l ≠ []) :
    (ls.map trim).filter (fun l => !l.isEmpty) = ls := by
  induction ls with
  | nil => rfl
  | cons l ls ih =>
    simp only [List.map_cons, List.filter_cons]
    rw [(hg l (by simp)).1]
    have h2 : (!l.isEmpty) = true := by
      have := (hg l (by simp)).2
      cases l with
      | nil => exact absurd rfl this
      | cons a as => rfl
    rw [if_pos h2, ih (fun m hm => hg m (by simp [hm]))]

theorem collapse_eq_self {s : List Char}
    (hg : ∀ l ∈ splitNL s, trim l = l ∧ l ≠ []) : collapseLines s = s := by
  unfold collapseLines
  rw [trimmedFilter_id hg, join_split]

theorem filtered_lines_good {s : List Char} :
    ∀ l ∈ ((splitNL s).map trim).filter (fun l => !l.isEmpty),
      trim l = l ∧ l ≠ [] ∧ '\n' ∉ l := by
  intro l hl
  obtain ⟨hmem, hne⟩ := List.mem_filter.mp hl
  obtain ⟨l0, hl0, rfl⟩ := List.mem_map.mp hmem
  refine ⟨trim_idem l0, ?_, ?_⟩
  · intro h0
    rw [h0] at hne
    cases hne
  · intro hmm
    exact mem_splitNL_no_nl l0 hl0 (mem_trim hmm)

theorem isSub_cons (pat : List Char) (c : Char) (cs : List Char) :
    isSub pat (c :: cs) = (pat.isPrefixOf (c :: cs) || isSub pat cs) := rfl

theorem isSub_joinNL_mem {pat : List Char} (hnl : '\n' ∉ pat) (hne : pat ≠ [])
    {ls : List (List Char)} (h : isSub pat (joinNL ls) = true) :
    ∃ l ∈ ls, isSub pat l = true := by
  induction ls with
  | nil =>
    exfalso
    cases pat with
    | nil => exact hne rfl
    | cons p ps => simp [joinNL, isSub] at h
  | cons l ls ih =>
    cases ls with
    | nil => exact ⟨l, by simp, by simpa [joinNL_one] using h⟩
    | cons l2 ls2 =>
      rw [joinNL_cons2] at h
      rcases isSub_append_cases h with h1 | h1 | h1
      · exact ⟨l, by simp, h1⟩
      · rw [isSub_cons, Bool.or_eq_true] at h1
        rcases h1 with h1 | h1
        · exfalso
          obtain ⟨t, ht⟩ := isPrefixOf_iff.mp h1
          cases pat with
          | nil => exact hne rfl
          | cons p ps =>
            injection ht with e1 _
            exact hnl (e1 ▸ List.mem_cons_self p ps)
        · obtain ⟨m, hm, hsub⟩ := ih h1
          exact ⟨m, List.mem_cons_of_mem l hm, hsub⟩
      · obtain ⟨s1, s2, _, hs2, hpat, _, ⟨v, hv⟩⟩ := h1
        exfalso
        cases s2 with
        | nil => exact hs2 rfl
        | cons q qs =>
          injection hv with e1 _
          apply hnl
          rw [hpat, ← e1]
          exact List.mem_append_right s1 (List.mem_cons_self q qs)

theorem collapse_no_marker {pat s : List Char} (hnl : '\n' ∉ pat) (hne : pat ≠ [])
    (h : isSub pat s = false) : isSub pat (collapseLines s) = false := by
  by_contra hc
  rw [Bool.not_eq_false] at hc
  unfold collapseLines at hc
  obtain ⟨l, hl, hsub⟩ := isSub_joinNL_mem hnl hne hc
  obtain ⟨hmem, _⟩ := List.mem_filter.mp hl
  obtain ⟨l0, hl0, rfl⟩ := List.mem_map.mp hmem
  have h1 : isSub pat l0 = true := isSub_trim hsub
  have h2 : isSub pat s = true := isSub_line hl0 h1
  rw [h] at h2
  cases h2

/-! ## Lemmas: invariants of the cleaning output -/

theorem isSub_into {pat x t y : List Char} (hx : x ++ t = y)
    (h : isSub pat x = true) : isSub pat y = true := by
  rw [← hx]
  simpa using isSub_extend h [] t

theorem editCut_no_up (c0 : List Char) : isSub editUp (editCut c0) = false := by
  unfold editCut
  by_cases h : (isSub editUp c0 || isSub editLo c0) = true
  · rw [if_pos h]
    by_contra hc
    rw [Bool.not_eq_false] at hc
    have h1 := isSub_trim hc
    obtain ⟨t, ht⟩ := takeBefore_part editLo (takeBefore editUp c0)
    have h2 := isSub_into ht h1
    rw [not_isSub_takeBefore (by decide) c0] at h2
    cases h2
  · rw [if_neg h]
    simp only [Bool.or_eq_true, not_or, Bool.not_eq_true] at h
    exact h.1

theorem editCut_no_lo (c0 : List Char) : isSub editLo (editCut c0) = false := by
  unfold editCut
  by_cases h : (isSub editUp c0 || isSub editLo c0) = true
  · rw [if_pos h]
    by_contra hc
    rw [Bool.not_eq_false] at hc
    have h1 := isSub_trim hc
    rw [not_isSub_takeBefore (by decide) (takeBefore editUp c0)] at h1
    cases h1
  · rw [if_neg h]
    simp only [Bool.or_eq_true, not_or, Bool.not_eq_true] at h
    exact h.2

theorem trim_fixed_head {s : List Char} (h : trim s = s) :
    ∀ x, s.head? = some x → isWs x = false := by
  intro x hx
  by_contra hws
  rw [Bool.not_eq_false] at hws
  cases s with
  | nil => cases hx
  | cons c cs =>
    have hc : c = x := by
      simp only [List.head?_cons, Option.some.injEq] at hx
      exact hx
    obtain ⟨u2, hu2⟩ := dropWhileWs_part ((c :: cs).dropWhile isWs).reverse
    have hlen : (trim (c :: cs)).length < (c :: cs).length := by
      unfold trim
      rw [List.length_reverse]
      have e1 : (List.dropWhile isWs ((c :: cs).dropWhile isWs).reverse).length ≤
          ((c :: cs).dropWhile isWs).length := by
        have := congrArg List.length hu2
        rw [List.length_append, List.length_reverse] at this
        omega
      have e2 : (c :: cs).dropWhile isWs = cs.dropWhile isWs := by
        rw [List.dropWhile_cons, if_pos (by rw [hc]; exact hws)]
      obtain ⟨u3, hu3⟩ := dropWhileWs_part cs
      have e3 : (cs.dropWhile isWs).length ≤ cs.length := by
        have := congrArg List.length hu3
        rw [List.length_append] at this
        omega
      rw [e2] at e1
      rw [e2]
      simp only [List.length_cons]
      omega
    rw [h] at hlen
    exact Nat.lt_irrefl _ hlen

theorem trim_fixed_getLast {s : List Char} (h : trim s = s) :
    ∀ x, s.getLast? = some x → isWs x = false := by
  intro x hx
  by_contra hws
  rw [Bool.not_eq_false] at hws
  obtain ⟨u, hu⟩ := dropWhileWs_part s
  have hdne : s.dropWhile isWs ≠ [] := by
    intro h0
    have : trim s = [] := by unfold trim; rw [h0]; rfl
    rw [h] at this
    rw [this] at hx
    cases hx
  have hlast : (s.dropWhile isWs).getLast? = some x := by
    rw [← hu, List.getLast?_append] at hx
    cases hg : (s.dropWhile isWs).getLast? with
    | none =>
      exfalso
      cases hd : s.dropWhile isWs with
      | nil => exact hdne hd
      | cons a as =>
        rw [hd, List.getLast?_eq_getLast_of_ne_nil (by simp)] at hg
        cases hg
    | some y =>
      rw [hg, Option.or_some] at hx
      exact hx
  have hrev : (s.dropWhile isWs).reverse.head? = some x := by
    rw [List.head?_reverse]
    exact hlast
  cases hr : (s.dropWhile isWs).reverse with
  | nil =>
    rw [hr] at hrev
    cases hrev
  | cons r0 rr =>
    have hr0 : r0 = x := by
      rw [hr] at hrev
      simp only [List.head?_cons, Option.some.injEq] at hrev
      exact hrev
    have hlen : (trim s).length < s.length := by
      unfold trim
      rw [List.length_reverse, hr, List.dropWhile_cons, if_pos (by rw [hr0]; exact hws)]
      obtain ⟨u4, hu4⟩ := dropWhileWs_part rr
      have e4 : (rr.dropWhile isWs).length ≤ rr.length := by
        have := congrArg List.length hu4
        rw [List.length_append] at this
        omega
      have e5 : rr.length + 1 = (s.dropWhile isWs).length := by
        have := congrArg List.length hr
        rw [List.length_reverse, List.length_cons] at this
        omega
      have e6 : (s.dropWhile isWs).length ≤ s.length := by
        have := congrArg List.length hu
        rw [List.length_append] at this
        omega
      omega
    rw [h] at hlen
    exact Nat.lt_irrefl _ hlen

theorem head_append_left {l r : List Char} (h : l ≠ []) :
    (l ++ r).head? = l.head? := by
  cases l with
  | nil => exact absurd rfl h
  | cons x xs => rfl

theorem collapse_nil_eq : collapseLines [] = [] := rfl

theorem collapse_good (s : List Char) :
    collapseLines s = [] ∨
      ∀ l ∈ splitNL (collapseLines s), trim l = l ∧ l ≠ [] := by
  cases hf : ((splitNL s).map trim).filter (fun l => !l.isEmpty) with
  | nil =>
    left
    unfold collapseLines
    rw [hf]
    rfl
  | cons f fs =>
    right
    intro l hl
    unfold collapseLines at hl
    rw [hf] at hl
    rw [split_join (fun m hm => by
      have := filtered_lines_good (s := s) m (by rw [hf]; exact hm)
      exact this.2.2) (by simp)] at hl
    have := filtered_lines_good (s := s) l (by rw [hf]; exact hl)
    exact ⟨this.1, this.2.1⟩

theorem collapse_head_not_ws (s : List Char) :
    ∀ x, (collapseLines s).head? = some x → isWs x = false := by
  intro x hx
  cases hf : ((splitNL s).map trim).filter (fun l => !l.isEmpty) with
  | nil =>
    unfold collapseLines at hx
    rw [hf] at hx
    cases hx
  | cons f fs =>
    have hfg := filtered_lines_good (s := s) f (by rw [hf]; exact List.mem_cons_self f fs)
    unfold collapseLines at hx
    rw [hf, joinNL_head fs hfg.2.1] at hx
    exact trim_fixed_head hfg.1 x hx

theorem collapse_getLast_not_ws (s : List Char) :
    ∀ x, (collapseLines s).getLast? = some x → isWs x = false := by
  intro x hx
  unfold collapseLines at hx
  refine joinNL_getLast_not_ws (fun l hl => ?_) x hx
  have := filtered_lines_good (s := s) l hl
  exact ⟨this.2.1, trim_fixed_getLast this.1⟩

theorem isSub_append_dots {pat a : List Char} (hd : '.' ∉ pat) (hne : pat ≠ [])
    (h : isSub pat (a ++ dots) = true) : isSub pat a = true := by
  have hdots : ∀ c ∈ dots, c = '.' := by decide
  rcases isSub_append_cases h with h1 | h1 | h1
  · exact h1
  · exfalso
    obtain ⟨u, v, huv⟩ := isSub_iff.mp h1
    cases pat with
    | nil => exact hne rfl
    | cons p ps =>
      have hp : p ∈ dots := mem_of_occ huv (List.mem_cons_self p ps)
      apply hd
      rw [← hdots p hp]
      exact List.mem_cons_self p ps
  · exfalso
    obtain ⟨s1, s2, _, hs2, hpat, _, ⟨v, hv⟩⟩ := h1
    cases s2 with
    | nil => exact hs2 rfl
    | cons q qs =>
      have hq : q ∈ dots := by
        rw [← hv]
        exact List.mem_append_left v (List.mem_cons_self q qs)
      apply hd
      rw [hpat, ← hdots q hq]
      exact List.mem_append_right s1 (List.mem_cons_self q qs)

/-- On a string already satisfying the cleaning invariants, the cleaning
transform reduces to the final truncation step. -/
theorem cleanBody_of_invariants {s : List Char}
    (h1 : trim s = s) (h2 : isSub editUp s = false) (h3 : isSub editLo s = false)
    (h4 : collapseLines s = s) :
    cleanCommentBody s = if 1000 < s.length then s.take 1000 ++ dots else s := by
  unfold cleanCommentBody editCut
  rw [h1, h2, h3]
  simp only [Bool.or_self, Bool.false_eq_true, if_false]
  rw [h4]

/-- C3: the comment-body cleaning transform of
`RedditScraper._clean_comment_body` is idempotent — applying it to its own
output returns the output unchanged (no double ellipsis, no residual
edit-marker text). -/
theorem c3_clean_idempotent (b : List Char) :
    cleanCommentBody (cleanCommentBody b) = cleanCommentBody b := by
  have hup : isSub editUp (collapseLines (editCut (trim b))) = false :=
    collapse_no_marker (by decide) (by decide) (editCut_no_up (trim b))
  have hlo : isSub editLo (collapseLines (editCut (trim b))) = false :=
    collapse_no_marker (by decide) (by decide) (editCut_no_lo (trim b))
  have htr : trim (collapseLines (editCut (trim b))) = collapseLines (editCut (trim b)) :=
    trim_eq_self (collapse_head_not_ws _) (collapse_getLast_not_ws _)
  by_cases hlen : 1000 < (collapseLines (editCut (trim b))).length
  case neg =>
    have hout : cleanCommentBody b = collapseLines (editCut (trim b)) := by
      unfold cleanCommentBody
      rw [if_neg hlen]
    have hcol : collapseLines (collapseLines (editCut (trim b))) =
        collapseLines (editCut (trim b)) := by
      rcases collapse_good (editCut (trim b)) with hnil | hg
      · rw [hnil]
        rfl
      · exact collapse_eq_self hg
    rw [hout, cleanBody_of_invariants htr hup hlo hcol, if_neg hlen]
  case pos =>
    have good2 : ∀ l ∈ splitNL (collapseLines (editCut (trim b))),
        trim l = l ∧ l ≠ [] := by
      rcases collapse_good (editCut (trim b)) with hnil | hg
      · exfalso
        rw [hnil] at hlen
        simp at hlen
      · exact hg
    have hout : cleanCommentBody b =
        (collapseLines (editCut (trim b))).take 1000 ++ dots := by
      unfold cleanCommentBody
      rw [if_pos hlen]
    rw [hout]
    generalize hX : collapseLines (editCut (trim b)) = c2 at hup hlo htr hlen good2 ⊢
    have htl : (c2.take 1000).length = 1000 := by
      rw [List.length_take]
      omega
    have htne : c2.take 1000 ≠ [] := by
      intro h0
      rw [h0] at htl
      cases htl
    have hsd : splitNL dots = [dots] := splitNL_no_nl (by decide)
    have hsplit_td : splitNL (c2.take 1000 ++ dots) =
        modLast (fun l => l ++ dots) (splitNL (c2.take 1000)) := by
      have h0 := splitNL_append (c2.take 1000) dots
      simp only [hsd, List.headD_cons, List.tail_cons, List.append_nil] at h0
      exact h0
    have hsplit_c2 : splitNL c2 =
        modLast (fun l => l ++ (splitNL (c2.drop 1000)).headD [])
          (splitNL (c2.take 1000)) ++ (splitNL (c2.drop 1000)).tail := by
      conv_lhs => rw [← List.take_append_drop 1000 c2]
      exact splitNL_append _ _
    obtain ⟨init0, lt0, hconc⟩ : ∃ i l, splitNL (c2.take 1000) = i ++ [l] := by
      rcases List.eq_nil_or_concat (splitNL (c2.take 1000)) with h0 | ⟨L, x, hLx⟩
      · exact absurd h0 (splitNL_ne_nil _)
      · exact ⟨L, x, by rw [hLx, List.concat_eq_append]⟩
    rw [hconc, modLast_concat] at hsplit_td
    rw [hconc, modLast_concat] at hsplit_c2
    have hlast_line : (lt0 ++ (splitNL (c2.drop 1000)).headD []) ∈ splitNL c2 := by
      rw [hsplit_c2]
      exact List.mem_append_left _ (List.mem_append_right _ (List.mem_singleton.mpr rfl))
    have hgl := good2 _ hlast_line
    have hdotlast : ∀ (l : List Char) (x : Char),
        (l ++ dots).getLast? = some x → isWs x = false := by
      intro l x hx
      rw [List.getLast?_append] at hx
      have hdl : dots.getLast? = some '.' := by decide
      rw [hdl, Option.or_some] at hx
      have : x = '.' := by
        injection hx with e
        exact e.symm
      rw [this]
      decide
    have hgood_td : ∀ l ∈ splitNL (c2.take 1000 ++ dots), trim l = l ∧ l ≠ [] := by
      rw [hsplit_td]
      intro l hl
      rcases List.mem_append.mp hl with hmem | hmem
      · have hin : l ∈ splitNL c2 := by
          rw [hsplit_c2]
          exact List.mem_append_left _ (List.mem_append_left _ hmem)
        exact good2 l hin
      · rw [List.mem_singleton] at hmem
        subst hmem
        constructor
        · apply trim_eq_self
          · intro x hx
            cases lt0 with
            | nil =>
              rw [List.nil_append] at hx
              have hdh : dots.head? = some '.' := by decide
              rw [hdh] at hx
              injection hx with e
              rw [← e]
              decide
            | cons y ys =>
              simp only [List.cons_append, List.head?_cons, Option.some.injEq] at hx
              have h5 := trim_fixed_head hgl.1 y (by rw [List.cons_append]; rfl)
              rw [← hx]
              exact h5
          · exact hdotlast lt0
        · intro h0
          have := List.append_eq_nil.mp h0
          have hd0 : dots ≠ [] := by decide
          exact hd0 this.2
    have hcol_td : collapseLines (c2.take 1000 ++ dots) = c2.take 1000 ++ dots :=
      collapse_eq_self hgood_td
    have htr_td : trim (c2.take 1000 ++ dots) = c2.take 1000 ++ dots := by
      apply trim_eq_self
      · intro x hx
        rw [head_append_left htne] at hx
        have hx2 : c2.head? = some x := by
          conv_lhs => rw [← List.take_append_drop 1000 c2]
          rw [head_append_left htne]
          exact hx
        exact trim_fixed_head htr x hx2
      · exact hdotlast (c2.take 1000)
    have hup_td : isSub editUp (c2.take 1000 ++ dots) = false := by
      by_contra hc
      rw [Bool.not_eq_false] at hc
      have h6 := isSub_append_dots (by decide) (by decide) hc
      have h7 := isSub_take h6
      rw [hup] at h7
      cases h7
    have hlo_td : isSub editLo (c2.take 1000 ++ dots) = false := by
      by_contra hc
      rw [Bool.not_eq_false] at hc
      have h6 := isSub_append_dots (by decide) (by decide) hc
      have h7 := isSub_take h6
      rw [hlo] at h7
      cases h7
    rw [cleanBody_of_invariants htr_td hup_td hlo_td hcol_td]
    have hlen_td : (c2.take 1000 ++ dots).length = 1003 := by
      rw [List.length_append, htl]
      rfl
    rw [if_pos (by rw [hlen_td]; omega), List.take_left' htl]

/-! ## Lemmas: stable descending sort -/

theorem mem_insertDesc {c x : PrawComment} {l : List PrawComment}
    (h : x ∈ insertDesc c l) : x = c ∨ x ∈ l := by
  induction l with
  | nil =>
    simp only [insertDesc, List.mem_singleton] at h
    exact Or.inl h
  | cons d ds ih =>
    by_cases hlt : c.score < d.score
    · rw [insertDesc, if_pos hlt] at h
      rcases List.mem_cons.mp h with rfl | h2
      · exact Or.inr (List.mem_cons_self _ _)
      · rcases ih h2 with h3 | h3
        · exact Or.inl h3
        · exact Or.inr (List.mem_cons_of_mem d h3)
    · rw [insertDesc, if_neg hlt] at h
      rcases List.mem_cons.mp h with rfl | h2
      · exact Or.inl rfl
      · exact Or.inr h2

theorem insertDesc_pairwise {c : PrawComment} {l : List PrawComment}
    (h : l.Pairwise (fun a b => b.score ≤ a.score)) :
    (insertDesc c l).Pairwise (fun a b => b.score ≤ a.score) := by
  induction l with
  | nil => simp [insertDesc]
  | cons d ds ih =>
    rw [List.pairwise_cons] at h
    by_cases hlt : c.score < d.score
    · rw [insertDesc, if_pos hlt, List.pairwise_cons]
      refine ⟨fun b hb => ?_, ih h.2⟩
      rcases mem_insertDesc hb with rfl | hb2
      · omega
      · exact h.1 b hb2
    · rw [insertDesc, if_neg hlt, List.pairwise_cons]
      refine ⟨fun b hb => ?_, ?_⟩
      · rcases List.mem_cons.mp hb with rfl | hb2
        · omega
        · have := h.1 b hb2
          omega
      · rw [List.pairwise_cons]
        exact h

theorem sortDesc_pairwise (l : List PrawComment) :
    (sortDesc l).Pairwise (fun a b => b.score ≤ a.score) := by
  induction l with
  | nil => simp [sortDesc]
  | cons c cs ih =>
    rw [sortDesc]
    exact insertDesc_pairwise ih

theorem filter_insertDesc (k : Int) (c : PrawComment) (l : List PrawComment) :
    (insertDesc c l).filter (fun x => x.score == k) =
      ((c :: l).filter (fun x => x.score == k)) := by
  induction l with
  | nil => rfl
  | cons d ds ih =>
    by_cases hlt : c.score < d.score
    · rw [insertDesc, if_pos hlt]
      simp only [List.filter_cons]
      rw [ih]
      simp only [List.filter_cons]
      by_cases hdk : (d.score == k) = true
      · have hck : (c.score == k) = false := by
          rw [beq_iff_eq] at hdk
          rw [beq_eq_false_iff_ne]
          intro e
          omega
        simp [hdk, hck]
      · by_cases hck : (c.score == k) = true
        · simp [hdk, hck]
        · simp [hdk, hck]
    · rw [insertDesc, if_neg hlt]

theorem sortDesc_stable (k : Int) (l : List PrawComment) :
    (sortDesc l).filter (fun x => x.score == k) = l.filter (fun x => x.score == k) := by
  induction l with
  | nil => rfl
  | cons c cs ih =>
    rw [sortDesc, filter_insertDesc]
    simp only [List.filter_cons]
    rw [ih]

/-! ## Claim theorems -/

set_option maxRecDepth 4000 in
/-- C4: the comment sequence returned by `get_top_comments` is ordered by
non-increasing score, ties between equal scores keep original fetch order
(the sort is stable), the sequence has length at most `limit`, and valid
comments fetched with scores [500, 275, 350] come out ordered
[500, 350, 275]. -/
theorem c4_top_comments_order (minScore : Int) (limit : Nat)
    (fetched : List PrawComment) :
    (getTopComments minScore limit fetched).Pairwise (fun a b => b.score ≤ a.score) ∧
    (getTopComments minScore limit fetched).length ≤ limit ∧
    (∀ k : Int,
      (sortDesc (fetched.filter (fun c => isValidComment minScore c))).filter
          (fun x => x.score == k) =
        (fetched.filter (fun c => isValidComment minScore c)).filter
          (fun x => x.score == k)) ∧
    (getTopComments minCommentScoreDefault defaultCommentLimit
        [praw500, praw275, praw350]).map (fun c => c.score) = [500, 350, 275] := by
  have hdef : getTopComments minScore limit fetched =
      ((sortDesc (fetched.filter (fun c => isValidComment minScore c))).take limit).map
        toRedditComment := rfl
  refine ⟨?_, ?_, fun k => sortDesc_stable k _, by decide⟩
  · rw [hdef]
    refine List.Pairwise.map toRedditComment (fun a b h => h) ?_
    exact List.Pairwise.sublist (List.take_sublist limit _) (sortDesc_pairwise _)
  · rw [hdef, List.length_map]
    exact List.length_take_le limit _

/-- C10: `_clean_comment_body` always returns at most 1003 characters, and an
output longer than 1000 characters is exactly a 1000-character truncation
followed by the three-character ellipsis marker. -/
theorem c10_clean_length_bound (b : List Char) :
    (cleanCommentBody b).length ≤ 1003 ∧
    (1000 < (cleanCommentBody b).length →
      ∃ t, cleanCommentBody b = t ++ dots ∧ t.length = 1000) := by
  unfold cleanCommentBody
  by_cases h : 1000 < (collapseLines (editCut (trim b))).length
  · rw [if_pos h]
    have hlen : ((collapseLines (editCut (trim b))).take 1000 ++ dots).length = 1003 := by
      rw [List.length_append, List.length_take]
      have hd3 : dots.length = 3 := rfl
      omega
    constructor
    · omega
    · intro _
      refine ⟨(collapseLines (editCut (trim b))).take 1000, rfl, ?_⟩
      rw [List.length_take]
      omega
  · rw [if_neg h]
    constructor
    · omega
    · intro h2
      exact absurd h2 h

theorem c10_clean_length_bound_witness :
    1000 < (cleanCommentBody (List.replicate 1100 'a')).length ∧
    ∃ t, cleanCommentBody (List.replicate 1100 'a') = t ++ dots ∧ t.length = 1000 := by
  have hch : ∀ x, x ∈ List.replicate 1100 'a' → isWs x = false := by
    intro x hx
    rw [List.mem_replicate] at hx
    rw [hx.2]
    decide
  have htrim : trim (List.replicate 1100 'a') = List.replicate 1100 'a' :=
    trim_eq_self
      (fun x hx => hch x (List.mem_of_mem_head? (Option.mem_def.mpr hx)))
      (fun x hx => hch x (List.mem_of_getLast?_eq_some hx))
  have hnomark : ∀ pat : List Char, 'E' ∈ pat →
      isSub pat (List.replicate 1100 'a') = false := by
    intro pat hE
    by_contra hc
    rw [Bool.not_eq_false] at hc
    obtain ⟨u, v, huv⟩ := isSub_iff.mp hc
    have hEm : 'E' ∈ List.replicate 1100 'a' := mem_of_occ huv hE
    rw [List.mem_replicate] at hEm
    exact absurd hEm.2 (by decide)
  have hcut : editCut (trim (List.replicate 1100 'a')) = List.replicate 1100 'a' := by
    rw [htrim]
    unfold editCut
    rw [hnomark editUp (by decide), hnomark editLo (by decide)]
    rfl
  have hsplit : splitNL (List.replicate 1100 'a') = [List.replicate 1100 'a'] := by
    apply splitNL_no_nl
    intro h
    rw [List.mem_replicate] at h
    exact absurd h.2 (by decide)
  have hrne : List.replicate 1100 'a' ≠ [] := by
    intro h0
    have hl0 := congrArg List.length h0
    rw [List.length_replicate] at hl0
    cases hl0
  have hcol : collapseLines (List.replicate 1100 'a') = List.replicate 1100 'a' := by
    apply collapse_eq_self
    rw [hsplit]
    intro l hl
    rw [List.mem_singleton] at hl
    subst hl
    exact ⟨htrim, hrne⟩
  have hfix : cleanCommentBody (List.replicate 1100 'a') =
      (List.replicate 1100 'a').take 1000 ++ dots := by
    unfold cleanCommentBody
    rw [hcut, hcol, if_pos (by rw [List.length_replicate]; omega)]
  have hlen : (cleanCommentBody (List.replicate 1100 'a')).length = 1003 := by
    rw [hfix, List.length_append, List.length_take, List.length_replicate]
    have hd3 : dots.length = 3 := rfl
    omega
  have h := c10_clean_length_bound (List.replicate 1100 'a')
  have hgt : 1000 < (cleanCommentBody (List.replicate 1100 'a')).length := by
    rw [hlen]
    omega
  exact ⟨hgt, h.2 hgt⟩

/-- C2: `_is_valid_comment` returns true exactly when the author is present,
the body is present and is neither the removed sentinel, the deleted
sentinel, nor empty, the author is not a known bot account, the score is at
least the configured minimum, and the trimmed body has at least 20
characters; in particular a score below the minimum, or a trimmed body
shorter than 20 characters, forces a false result. -/
theorem c2_validity_predicate (minScore : Int) (c : PrawComment) :
    (isValidComment minScore c = true ↔
      ∃ a b, c.author = some a ∧ c.body = some b ∧
        b ≠ "[removed]".data ∧ b ≠ "[deleted]".data ∧ b ≠ [] ∧
        a ∉ botAccounts ∧ minScore ≤ c.score ∧ 20 ≤ (trim b).length) ∧
    (c.score < minScore → isValidComment minScore c = false) ∧
    ((trim (c.body.getD [])).length < 20 → isValidComment minScore c = false) := by
  obtain ⟨cid, cbody, cauthor, cscore, cparent⟩ := c
  cases cauthor with
  | none =>
    refine ⟨?_, fun _ => rfl, fun _ => rfl⟩
    simp [isValidComment]
  | some a =>
    cases cbody with
    | none =>
      refine ⟨?_, fun _ => rfl, fun _ => rfl⟩
      simp [isValidComment]
    | some b =>
      have hbots : botAccounts.contains a = true ↔ a ∈ botAccounts := by
        simp [List.contains, List.elem_iff]
      refine ⟨?_, ?_, ?_⟩
      · simp only [isValidComment]
        constructor
        · intro h
          split_ifs at h with h1 h2 h3 h4
          push_neg at h1
          refine ⟨a, b, rfl, rfl, h1.1, h1.2, ?_, ?_, by omega, by omega⟩
          · intro he
            subst he
            rw [trim_nil_eq] at h4
            simp at h4
          · intro hmem
            rw [← hbots] at hmem
            rw [hmem] at h2
            exact h2 rfl
        · rintro ⟨a', b', ha', hb', h1, h2, _, h4, h5, h6⟩
          injection ha' with ea
          injection hb' with eb
          subst ea
          subst eb
          rw [if_neg (by push_neg; exact ⟨h1, h2⟩),
              if_neg (by intro hc; exact h4 (hbots.mp hc)),
              if_neg (by omega), if_neg (by omega)]
      · intro hs
        simp only [isValidComment]
        split_ifs <;> rfl
      · intro hlen
        simp only [Option.getD_some] at hlen
        simp only [isValidComment]
        split_ifs <;> rfl

theorem c2_validity_predicate_witness :
    isValidComment 10 prawLowScore = false ∧
    isValidComment 10 prawShortBody = false :=
  ⟨(c2_validity_predicate 10 prawLowScore).2.1 (by decide),
   (c2_validity_predicate 10 prawShortBody).2.2 (by decide)⟩

/-- C8: the derived story title is the style-specific prefix, a space, and
the post title with its trailing question mark stripped when the title ends
in "?", and otherwise the prefix, a colon separator, and the unmodified
title; the two concrete examples from the specification hold. -/
theorem c8_story_title (t s : String) :
    (t.data.getLast? = some '?' →
      generateStoryTitle t s = stylePrefixFor s ++ " " ++ ⟨t.data.dropLast⟩) ∧
    (t.data.getLast? ≠ some '?' →
      generateStoryTitle t s = stylePrefixFor s ++ ": " ++ t) ∧
    generateStoryTitle "What's the best advice you've ever gotten?" "comedy" =
      "The Hilarious Tale of What's the best advice you've ever gotten" ∧
    generateStoryTitle "Tell me about your day" "engaging" =
      "The Story of: Tell me about your day" := by
  refine ⟨?_, ?_, by decide, by decide⟩
  · intro h
    unfold generateStoryTitle
    rw [if_pos h]
  · intro h
    unfold generateStoryTitle
    rw [if_neg h]

theorem c8_story_title_witness :
    generateStoryTitle "Tell me about your day" "engaging" =
      stylePrefixFor "engaging" ++ ": " ++ "Tell me about your day" :=
  (c8_story_title "Tell me about your day" "engaging").2.1 (by decide)

/-- C9: `test_connection` yields `False` (a boolean) on any exception and
`True` when the front-page listing yields a submission, but when the listing
is empty the `for` loop falls through and the function implicitly returns
Python `None` — not a boolean — contradicting its own `-> bool` annotation
and the claim. -/
theorem c9_test_reachability (msg t : String) (ts : List String) :
    testConnection (ProbeResult.failure msg) = some false ∧
    testConnection (ProbeResult.listing (t :: ts)) = some true ∧
    testConnection (ProbeResult.listing []) = none :=
  ⟨rfl, rfl, rfl⟩

/-- C1 (amended): the Prompt Assembler remaps an unrecognized requested style
to "engaging" without error, so the style recorded on the `StoryPrompt` is
always in the fixed vocabulary; the `GeneratedStory` produced by
`generate_from_post`, however, carries the requested style verbatim, which
falls outside the vocabulary when the request does. -/
theorem c1_style_vocab (style : String) (post : RedditPost)
    (comments : List RedditComment) (chatStyle : Bool)
    (gen : String → Nat → Except GenError String) (providerName : String)
    (nowStamp : Nat) (minWords maxWords : Option Nat) :
    (buildStoryPrompt post comments style minWords maxWords).style ∈ styleVocab ∧
    (style ∉ styleVocab →
      (buildStoryPrompt post comments style minWords maxWords).style = "engaging") ∧
    (style ∈ styleVocab →
      (buildStoryPrompt post comments style minWords maxWords).style = style) ∧
    (∀ st, (generateFromPostT chatStyle gen providerName nowStamp post comments style
        minWords maxWords).1 = .ok st → st.style = style) := by
  have hcm : styleVocab.contains style = true ↔ style ∈ styleVocab := by
    simp [List.contains, List.elem_iff]
  have hstyle : (buildStoryPrompt post comments style minWords maxWords).style =
      if styleVocab.contains style then style else "engaging" := rfl
  refine ⟨?_, ?_, ?_, ?_⟩
  · rw [hstyle]
    by_cases h : styleVocab.contains style = true
    · rw [if_pos h]
      exact hcm.mp h
    · rw [if_neg h]
      decide
  · intro hmem
    rw [hstyle, if_neg (fun hc => hmem (hcm.mp hc))]
  · intro hmem
    rw [hstyle, if_pos (hcm.mpr hmem)]
  · intro st h
    simp only [generateFromPostT] at h
    rcases hg : gen (if chatStyle then
        (buildStoryPrompt post comments style minWords maxWords).user_prompt
      else (buildStoryPrompt post comments style minWords maxWords).system_message ++
        "\n\n" ++
        (buildStoryPrompt post comments style minWords maxWords).user_prompt) 1500
      with e | content
    · rw [hg] at h
      cases h
    · rw [hg] at h
      injection h with h2
      rw [← h2]

/-- C1 counterexample: requesting the unknown style "zany" produces a
`GeneratedStory` whose `style` field is "zany", which is not in the fixed
style vocabulary — the claim that `GeneratedStory.style` always lies in the
vocabulary is false on the code. -/
theorem c1_style_vocab_counterexample :
    ((generateFromPostT true okGen "openai" 0 samplePost sampleComments "zany"
        none none).1.map (fun st => st.style)) = Except.ok "zany" ∧
    "zany" ∉ styleVocab :=
  ⟨rfl, by decide⟩

theorem c1_style_vocab_witness :
    (buildStoryPrompt samplePost sampleComments "zany" none none).style =
      "engaging" ∧
    (buildStoryPrompt samplePost sampleComments "comedy" none none).style =
      "comedy" :=
  ⟨(c1_style_vocab "zany" samplePost sampleComments true okGen "openai" 0
      none none).2.1 (by decide),
   (c1_style_vocab "comedy" samplePost sampleComments true okGen "openai" 0
      none none).2.2.1 (by decide)⟩

/-- C5 (amended): `generate_from_post` always invokes `generate` exactly once
with a 1500-token ceiling; for the chat-style variant it passes only the
assembled user instruction (the provider substitutes its own fixed system
sentence), and for single-message/managed-runtime variants it passes the
system instruction, a blank line, and the user instruction concatenated. -/
theorem c5_prompt_convention (chatStyle : Bool)
    (gen : String → Nat → Except GenError String) (providerName : String)
    (nowStamp : Nat) (post : RedditPost) (comments : List RedditComment)
    (style : String) (minWords maxWords : Option Nat) :
    (generateFromPostT chatStyle gen providerName nowStamp post comments style
        minWords maxWords).2 =
      [⟨if chatStyle then
          (buildStoryPrompt post comments style minWords maxWords).user_prompt
        else (buildStoryPrompt post comments style minWords maxWords).system_message ++
          "\n\n" ++ (buildStoryPrompt post comments style minWords maxWords).user_prompt,
        1500⟩] := by
  rcases hg : gen (if chatStyle then
      (buildStoryPrompt post comments style minWords maxWords).user_prompt
    else (buildStoryPrompt post comments style minWords maxWords).system_message ++
      "\n\n" ++ (buildStoryPrompt post comments style minWords maxWords).user_prompt)
    1500 with e | content <;>
    simp [generateFromPostT, hg]

set_option maxRecDepth 8000 in
/-- C5 counterexample: in the chat-style path the string handed to `generate`
is exactly the assembled user instruction, and the two-message exchange the
provider then sends pairs it with a fixed built-in system sentence that
differs from the assembled system instruction; the assembled system
instruction appears nowhere in what reaches the provider, so the claim that
both assembled instructions are conveyed is false on the code. -/
theorem c5_prompt_convention_counterexample :
    (generateFromPostT true okGen "openai" 0 samplePost sampleComments "comedy"
        none none).2 =
      [⟨(buildStoryPrompt samplePost sampleComments "comedy" none none).user_prompt,
        1500⟩] ∧
    openAIMessages (buildStoryPrompt samplePost sampleComments "comedy"
        none none).user_prompt =
      [("system", openAIFixedSystem),
       ("user",
        (buildStoryPrompt samplePost sampleComments "comedy" none none).user_prompt)] ∧
    openAIFixedSystem ≠
      (buildStoryPrompt samplePost sampleComments "comedy" none none).system_message ∧
    isSub (buildStoryPrompt samplePost sampleComments "comedy"
        none none).system_message.data
      (buildStoryPrompt samplePost sampleComments "comedy" none none).user_prompt.data =
      false :=
  ⟨rfl, rfl, by decide, by decide⟩

/-- C6: `generate_from_subreddit` skips a post with fewer than 5 total
comments, skips a post whose comment fetch fails or yields fewer than 3
valid comments, catches and skips a per-post generation failure without
aborting the rest, appends the story on success, and over the 5-post
scenario (two posts under 5 comments, one with only 2 surviving comments,
two successful generations) produces exactly 2 stories. -/
theorem c6_compose_many_skips
    (f : RedditPost → Except GenError (List RedditComment))
    (g : RedditPost → List RedditComment → Except GenError GeneratedStory)
    (post : RedditPost) (rest : List RedditPost) :
    (post.num_comments < 5 →
      generateFromSubreddit f g (post :: rest) = generateFromSubreddit f g rest) ∧
    (∀ e, ¬post.num_comments < 5 → f post = .error e →
      generateFromSubreddit f g (post :: rest) = generateFromSubreddit f g rest) ∧
    (∀ comments, ¬post.num_comments < 5 → f post = .ok comments →
      comments.length < 3 →
      generateFromSubreddit f g (post :: rest) = generateFromSubreddit f g rest) ∧
    (∀ comments e, ¬post.num_comments < 5 → f post = .ok comments →
      ¬comments.length < 3 → g post comments = .error e →
      generateFromSubreddit f g (post :: rest) = generateFromSubreddit f g rest) ∧
    (∀ comments story, ¬post.num_comments < 5 → f post = .ok comments →
      ¬comments.length < 3 → g post comments = .ok story →
      generateFromSubreddit f g (post :: rest) =
        story :: generateFromSubreddit f g rest) ∧
    (generateFromSubreddit scenarioFetch scenarioGen scenarioPosts).length = 2 := by
  refine ⟨?_, ?_, ?_, ?_, ?_, rfl⟩
  · intro h5
    simp [generateFromSubreddit, h5]
  · intro e h5 hf
    simp [generateFromSubreddit, h5, hf]
  · intro cs h5 hf h3
    simp [generateFromSubreddit, h5, hf, h3]
  · intro cs e h5 hf h3 hge
    simp [generateFromSubreddit, h5, hf, h3, hge]
  · intro cs st h5 hf h3 hgo
    simp [generateFromSubreddit, h5, hf, h3, hgo]

theorem c6_compose_many_skips_witness :
    generateFromSubreddit scenarioFetch scenarioGen [mkScenarioPost "p1" 3] =
      generateFromSubreddit scenarioFetch scenarioGen [] ∧
    generateFromSubreddit scenarioFetch scenarioGen [mkScenarioPost "p2" 20] =
      generateFromSubreddit scenarioFetch scenarioGen [] ∧
    generateFromSubreddit scenarioFetch scenarioGen [mkScenarioPost "p4" 10] =
      scenarioStory :: generateFromSubreddit scenarioFetch scenarioGen [] :=
  ⟨(c6_compose_many_skips scenarioFetch scenarioGen (mkScenarioPost "p1" 3) []).1
      (by decide),
   (c6_compose_many_skips scenarioFetch scenarioGen (mkScenarioPost "p2" 20) []).2.2.1
      [sampleComment1, sampleComment2] (by decide) rfl (by decide),
   (c6_compose_many_skips scenarioFetch scenarioGen (mkScenarioPost "p4" 10)
      []).2.2.2.2.1 [sampleComment1, sampleComment1, sampleComment2] scenarioStory
      (by decide) rfl (by decide) rfl⟩

/-- C7: a remote error raised by the provider during `generate` propagates
out of `generate_from_post` unmodified, and the provider is invoked exactly
once (no retry, no fallback to another variant). -/
theorem c7_generation_error_propagates (chatStyle : Bool)
    (gen : String → Nat → Except GenError String) (providerName : String)
    (nowStamp : Nat) (post : RedditPost) (comments : List RedditComment)
    (style : String) (minWords maxWords : Option Nat) (e : GenError)
    (h : gen (if chatStyle then
        (buildStoryPrompt post comments style minWords maxWords).user_prompt
      else (buildStoryPrompt post comments style minWords maxWords).system_message ++
        "\n\n" ++ (buildStoryPrompt post comments style minWords maxWords).user_prompt)
      1500 = .error e) :
    (generateFromPostT chatStyle gen providerName nowStamp post comments style
        minWords maxWords).1 = .error e ∧
    (generateFromPostT chatStyle gen providerName nowStamp post comments style
        minWords maxWords).2 =
      [⟨if chatStyle then
          (buildStoryPrompt post comments style minWords maxWords).user_prompt
        else (buildStoryPrompt post comments style minWords maxWords).system_message ++
          "\n\n" ++ (buildStoryPrompt post comments style minWords maxWords).user_prompt,
        1500⟩] := by
  constructor <;> simp [generateFromPostT, h]

theorem c7_generation_error_propagates_witness :
    (generateFromPostT true errGen "openai" 0 samplePost sampleComments "engaging"
        none none).1 = .error (.remote "rate limited") ∧
    (generateFromPostT true errGen "openai" 0 samplePost sampleComments "engaging"
        none none).2 =
      [⟨(buildStoryPrompt samplePost sampleComments "engaging" none none).user_prompt,
        1500⟩] := by
  have h := c7_generation_error_propagates true errGen "openai" 0 samplePost
    sampleComments "engaging" none none (.remote "rate limited") rfl
  exact ⟨h.1, by rw [h.2]; rfl⟩

end RedTales
